import Mathlib

/-!
Shallow embedding of the field-list builder (edrickjohn/dragndrop).

The repository has two page components with the same state logic:
`src/src/app/page.tsx` (the full builder, with palette, MAX_FIELDS cap and
add) and `src/unnamed/part_000` (a variant seeded with three fields whose
drag-end handler guards the `findIndex` results against `-1`).

Machine-level conventions of the embedding:
* JavaScript strings are `String`, `Date.now()` is an abstract `Nat`
  timestamp passed as an argument.
* A JavaScript array of fields is a `List Field`; because
  `arrayMove` (from `@dnd-kit/sortable`) can insert the JavaScript value
  `undefined` into the array (its inner `splice` may remove nothing),
  functions that go through `arrayMove` return `List (Option Field)`,
  where `none` is `undefined` and an ordinary element `x` is `some x`.
* `Array.prototype.findIndex` returns an `Int` (`-1` when absent).
-/

namespace FormBuilder

/-- The closed set of field kinds (`keyof FieldTypes` in the source). -/
inductive FieldType where
  | text
  | textarea
  | date
deriving DecidableEq

/-- `type Field = { id: string; type: keyof FieldTypes; label: string; className?: string }`.
The optional `className` is `Option String` (`none` = property absent). -/
structure Field where
  id : String
  type : FieldType
  label : String
  className : Option String := none
deriving DecidableEq

/-- `const MAX_FIELDS = 10` (page.tsx line 43). -/
def MAX_FIELDS : Nat := 10

/-- The class string a field renders with: every renderer in `fieldTypes`
uses `className || "w-full"`, so an absent or empty `className` displays
as `"w-full"` (page.tsx lines 63-71). -/
def effectiveClassName : Option String → String
  | some s => if s = "" then "w-full" else s
  | none => "w-full"

/-- `Array.prototype.findIndex`: index of the first element satisfying `p`,
`-1` when there is none. -/
def jsFindIndex (p : α → Bool) : List α → Int
  | [] => -1
  | x :: xs =>
    if p x then 0
    else
      let r := jsFindIndex p xs
      if r = -1 then -1 else r + 1

/-- The actual start position used by `Array.prototype.splice(start, ...)`
on an array of length `len`: `start < 0` means `max(len + start, 0)`,
otherwise `min(start, len)`. -/
def jsSpliceStart (len : Nat) (start : Int) : Nat :=
  if start < 0 then ((len : Int) + start).toNat else min start.toNat len

/-- Removal of the element at position `k` (all later elements shift left),
as `splice(k, 1)` does on a valid index. -/
def removeAt (l : List α) (k : Nat) : List α :=
  l.take k ++ l.drop (k + 1)

/-- Insertion of `x` at position `k ≤ l.length` (later elements shift
right), as `splice(k, 0, x)` does. -/
def insertAt (l : List α) (k : Nat) (x : α) : List α :=
  l.take k ++ x :: l.drop k

/-- `arr.splice(start, 1)` : the pair of `removed[0]` (`none` when the
clamped start lies past the end, i.e. nothing was deleted) and the
mutated array. -/
def spliceRemoveOne (l : List α) (start : Int) : Option α × List α :=
  let k := jsSpliceStart l.length start
  (l.get? k, removeAt l k)

/-- `arr.splice(start, 0, item)` : inserts `item` at the clamped start. -/
def spliceInsertOne (l : List α) (start : Int) (item : α) : List α :=
  let k := jsSpliceStart l.length start
  insertAt l k item

/-- `arrayMove` from `@dnd-kit/sortable`, over JavaScript values
(`Option α`, with `none` = `undefined`):

`const newArray = array.slice();`
`newArray.splice(to < 0 ? newArray.length + to : to, 0, newArray.splice(from, 1)[0]);`
`return newArray;`

The first argument of the outer `splice` is evaluated before the inner
`splice` shrinks the array, so `newArray.length` there is the original
length; `newArray.splice(from, 1)[0]` is `undefined` (`none`) when the
inner splice deleted nothing. -/
def arrayMove (array : List (Option α)) (f t : Int) : List (Option α) :=
  let insertPos : Int := if t < 0 then (array.length : Int) + t else t
  let r := spliceRemoveOne array f
  spliceInsertOne r.2 insertPos (r.1.getD none)

/-- The `newField` record built by `handleAddField` (page.tsx lines
207-211) from the clicked template, the current list length and
`Date.now()`: the spread keeps `type` and `className`, the id becomes
`templateId-now` and the label `templateLabel (len+1)`. -/
def newField (fieldType : Field) (len : Nat) (now : Nat) : Field :=
  { fieldType with
      id := fieldType.id ++ "-" ++ toString now,
      label := fieldType.label ++ " " ++ toString (len + 1) }

/-- `handleAddField` (page.tsx lines 201-213). `fieldType` is the template
object from `availableFields`; `now` is the value of `Date.now()`. -/
def handleAddField (fields : List Field) (fieldType : Field) (now : Nat) : List Field :=
  if MAX_FIELDS ≤ fields.length then fields
  else fields ++ [newField fieldType fields.length now]

/-- `handleDragEnd` (page.tsx lines 186-199): on drop, if there is an
`over` target and its id differs from the dragged id, commit
`arrayMove(items, items.findIndex(id = active.id), items.findIndex(id = over.id))`.
There is no guard against `findIndex` returning `-1`. -/
def handleDragEnd (fields : List Field) (activeId : String) (overId : Option String) :
    List (Option Field) :=
  match overId with
  | none => fields.map some
  | some o =>
    if activeId = o then fields.map some
    else
      arrayMove (fields.map some)
        (jsFindIndex (fun item => item.id == activeId) fields)
        (jsFindIndex (fun item => item.id == o) fields)

/-- The state update the drop commits once the target position is known
(the `setFields` closure in page.tsx lines 193-197, with the resolved
target index abstracted): `arrayMove(items, items.findIndex(it.id = fieldId), targetIndex)`. -/
def reorderDrop (items : List Field) (fieldId : String) (targetIndex : Int) :
    List (Option Field) :=
  arrayMove (items.map some) (jsFindIndex (fun it => it.id == fieldId) items) targetIndex

/-- The edit-session component state of page.tsx lines 166-170. -/
structure EditState where
  editingId : Option String
  editLabel : String
  editType : FieldType
  editClass : String
  showModal : Bool
deriving DecidableEq

/-- The initial edit-session state (`useState` initialisers). -/
def initEditState : EditState :=
  { editingId := none, editLabel := "", editType := FieldType.text,
    editClass := "", showModal := false }

/-- `openEditModal` (page.tsx lines 215-223): seed the draft from the
first field whose id matches, or do nothing if none matches.
`field.className || ""` is `""` exactly when `className` is absent or
empty, i.e. `Option.getD "" `. -/
def openEditModal (fields : List Field) (es : EditState) (id : String) : EditState :=
  match fields.find? (fun f => f.id == id) with
  | none => es
  | some field =>
    { editingId := some id
      editLabel := field.label
      editType := field.type
      editClass := field.className.getD ""
      showModal := true }

/-- `setEditLabel` (the `onChange` of the label input). -/
def setEditLabel (es : EditState) (v : String) : EditState :=
  { es with editLabel := v }

/-- `handleSaveEdit` (page.tsx lines 225-234): overwrite
label/type/className of every field whose id equals `editingId`
(a `string | null`; `null` matches nothing), then close the modal. -/
def handleSaveEdit (fields : List Field) (es : EditState) : List Field × EditState :=
  (fields.map fun f =>
      if some f.id = es.editingId then
        { f with label := es.editLabel, type := es.editType, className := some es.editClass }
      else f,
   { es with showModal := false })

/-- The template for the text field in `availableFields` (page.tsx line 161). -/
def textTemplate : Field :=
  { id := "text", type := FieldType.text, label := "Text Field" }

/-- The template for the textarea field (page.tsx line 162). -/
def textareaTemplate : Field :=
  { id := "textarea", type := FieldType.textarea, label := "Textarea Field" }

/-- The template for the date field (page.tsx line 163). -/
def dateTemplate : Field :=
  { id := "date", type := FieldType.date, label := "Date Field" }

/-- The static field registry (page.tsx lines 160-164). -/
def availableFields : List Field := [textTemplate, textareaTemplate, dateTemplate]

/-- A sequence of `add` calls from the empty list: each entry is the
template clicked and the `Date.now()` at that click. -/
def runAdds (ops : List (Field × Nat)) : List Field :=
  ops.foldl (fun fs op => handleAddField fs op.1 op.2) []

namespace Part000

/-- `handleDragEnd` of `src/unnamed/part_000` (lines 134-145): same
`arrayMove` commit, but only when both `findIndex` lookups succeeded
(`oldIndex !== -1 && newIndex !== -1`); a missing `over` makes
`over?.id` `undefined`, which matches no field id. -/
def handleDragEnd (fields : List Field) (activeId : String) (overId : Option String) :
    List (Option Field) :=
  let overEq : Bool := match overId with
    | some o => activeId == o
    | none => false
  if overEq then fields.map some
  else
    let oldIndex := jsFindIndex (fun f => f.id == activeId) fields
    let newIndex := match overId with
      | some o => jsFindIndex (fun f => f.id == o) fields
      | none => (-1 : Int)
    if oldIndex ≠ -1 ∧ newIndex ≠ -1 then
      arrayMove (fields.map some) oldIndex newIndex
    else fields.map some

/-- The three pre-seeded fields of part_000 (lines 113-117). -/
def initialFields : List Field :=
  [{ id := "1", type := FieldType.text, label := "Text Field", className := some "w-full" },
   { id := "2", type := FieldType.textarea, label := "Textarea Field", className := some "w-full" },
   { id := "3", type := FieldType.date, label := "Date Field", className := some "w-full" }]

end Part000

/-- Concrete field used by witnesses and counterexamples. -/
def fieldA : Field := { id := "a", type := FieldType.text, label := "A" }

/-- Concrete field used by witnesses and counterexamples. -/
def fieldB : Field := { id := "b", type := FieldType.textarea, label := "B" }

/-- Concrete field with a present `className`, used by witnesses. -/
def fieldC : Field :=
  { id := "c", type := FieldType.date, label := "C", className := some "mt-2" }

/-- Concrete edit-session state whose `editingId` matches no field of
`[fieldA, fieldB]`. -/
def esAbsent : EditState :=
  { editingId := some "zzz", editLabel := "L", editType := FieldType.text,
    editClass := "c", showModal := true }

/-- A list already at the cap, for the `add` no-op witness. -/
def tenFields : List Field := List.replicate MAX_FIELDS fieldA

/-- First of two instances sharing the id the add operation generates for
the text template at `Date.now() = 5`. -/
def dupFieldA : Field := { id := "text-5", type := FieldType.text, label := "Text Field 1" }

/-- Second instance with the same id but a different label. -/
def dupFieldB : Field := { id := "text-5", type := FieldType.text, label := "Text Field 2" }

/-! ### Helper lemmas about the JavaScript primitives -/

theorem jsFindIndex_neg_or (p : α → Bool) (l : List α) :
    jsFindIndex p l = -1 ∨ ∃ k : Nat, jsFindIndex p l = (k : Int) ∧ k < l.length := by
  induction l with
  | nil => exact Or.inl rfl
  | cons x xs ih =>
    by_cases hx : p x
    · exact Or.inr ⟨0, by simp [jsFindIndex, hx], by simp⟩
    · rcases ih with h | ⟨k, hk, hkl⟩
      · exact Or.inl (by simp [jsFindIndex, hx, h])
      · have hne : jsFindIndex p xs ≠ -1 := by rw [hk]; omega
        refine Or.inr ⟨k + 1, ?_, by simpa using Nat.succ_lt_succ hkl⟩
        rw [show jsFindIndex p (x :: xs) = jsFindIndex p xs + 1 by
          simp [jsFindIndex, hx, hne], hk]
        push_cast
        ring

theorem jsFindIndex_coe (p : α → Bool) (l : List α) (k : Nat)
    (h : jsFindIndex p l = (k : Int)) :
    k < l.length ∧ ∃ x, l.get? k = some x ∧ p x = true := by
  induction l generalizing k with
  | nil => simp only [jsFindIndex] at h; omega
  | cons x xs ih =>
    by_cases hx : p x
    · have hk0 : k = 0 := by
        rw [show jsFindIndex p (x :: xs) = 0 by simp [jsFindIndex, hx]] at h
        omega
      subst hk0
      exact ⟨by simp, x, rfl, by simpa using hx⟩
    · rcases jsFindIndex_neg_or p xs with h1 | ⟨m, hm, hml⟩
      · rw [show jsFindIndex p (x :: xs) = -1 by simp [jsFindIndex, hx, h1]] at h
        omega
      · have hne : jsFindIndex p xs ≠ -1 := by rw [hm]; omega
        rw [show jsFindIndex p (x :: xs) = jsFindIndex p xs + 1 by
          simp [jsFindIndex, hx, hne]] at h
        rw [hm] at h
        have hk : k = m + 1 := by omega
        subst hk
        obtain ⟨hml', x', hx', hpx'⟩ := ih m hm
        exact ⟨Nat.succ_lt_succ hml', x', by simpa using hx', hpx'⟩

theorem jsFindIndex_eq_of_unique (p : α → Bool) (l : List α) (j : Nat) (x : α)
    (hj : l.get? j = some x) (hx : p x = true)
    (hu : ∀ k y, l.get? k = some y → p y = true → k = j) :
    jsFindIndex p l = (j : Int) := by
  induction l generalizing j with
  | nil => simp at hj
  | cons z zs ih =>
    by_cases hz : p z
    · have h0 : (0 : Nat) = j := hu 0 z rfl hz
      rw [← h0]
      simp [jsFindIndex, hz]
    · cases j with
      | zero =>
        have hzx : z = x := by simpa using hj
        exact absurd (hzx ▸ hx) (by simpa using hz)
      | succ j' =>
        have hj' : zs.get? j' = some x := by simpa using hj
        have hu' : ∀ k y, zs.get? k = some y → p y = true → k = j' := by
          intro k y hk hy
          have := hu (k + 1) y (by simpa using hk) hy
          omega
        have hr := ih j' hj' hu'
        have hne : jsFindIndex p zs ≠ -1 := by rw [hr]; omega
        rw [show jsFindIndex p (z :: zs) = jsFindIndex p zs + 1 by
          simp [jsFindIndex, hz, hne]]
        rw [hr]
        push_cast
        ring

theorem jsSpliceStart_coe (len k : Nat) : jsSpliceStart len (k : Int) = min k len := by
  unfold jsSpliceStart
  rw [if_neg (by omega)]
  omega

theorem jsSpliceStart_negOne (len : Nat) : jsSpliceStart len (-1) = len - 1 := by
  unfold jsSpliceStart
  rw [if_pos (by omega)]
  omega

theorem length_removeAt (l : List α) (k : Nat) (h : k < l.length) :
    (removeAt l k).length = l.length - 1 := by
  simp only [removeAt, List.length_append, List.length_take, List.length_drop]
  omega

theorem length_insertAt (l : List α) (k : Nat) (x : α) (h : k ≤ l.length) :
    (insertAt l k x).length = l.length + 1 := by
  simp only [insertAt, List.length_append, List.length_take, List.length_cons,
    List.length_drop]
  omega

theorem get?_insertAt_self (l : List α) (k : Nat) (x : α) (h : k ≤ l.length) :
    (insertAt l k x).get? k = some x := by
  have hl : (l.take k).length = k := by simp [List.length_take]; omega
  rw [insertAt, List.get?_append_right (by omega), hl]
  simp

theorem removeAt_insertAt (l : List α) (k : Nat) (x : α) (h : k ≤ l.length) :
    removeAt (insertAt l k x) k = l := by
  have hl : (l.take k).length = k := by simp [List.length_take]; omega
  have h2 : (l.take k ++ [x]).length = k + 1 := by simp [hl]
  unfold removeAt insertAt
  rw [List.take_left' hl]
  rw [show l.take k ++ x :: l.drop k = (l.take k ++ [x]) ++ l.drop k by simp]
  rw [List.drop_left' h2, List.take_append_drop]

theorem get?_lt_length {l : List α} {k : Nat} {x : α} (h : l.get? k = some x) :
    k < l.length := by
  by_contra hc
  push_neg at hc
  rw [List.get?_eq_none.mpr hc] at h
  exact Option.noConfusion h

theorem insertAt_removeAt (l : List α) (k : Nat) (x : α) (h : l.get? k = some x) :
    insertAt (removeAt l k) k x = l := by
  have hk : k < l.length := get?_lt_length h
  have hl : (l.take k).length = k := by simp [List.length_take]; omega
  unfold insertAt removeAt
  rw [List.take_left' hl, List.drop_left' hl]
  have hd : l.drop k = x :: l.drop (k + 1) := by
    rw [List.drop_eq_get_cons hk]
    congr 1
    have := List.get?_eq_get hk
    rw [h] at this
    exact (Option.some.inj this).symm
  rw [← hd, List.take_append_drop]

theorem map_removeAt (f : α → β) (l : List α) (k : Nat) :
    (removeAt l k).map f = removeAt (l.map f) k := by
  simp [removeAt, List.map_take, List.map_drop]

theorem map_insertAt (f : α → β) (l : List α) (k : Nat) (x : α) :
    (insertAt l k x).map f = insertAt (l.map f) k (f x) := by
  simp [insertAt, List.map_take, List.map_drop]

theorem insertAt_perm (l : List α) (k : Nat) (x : α) :
    (insertAt l k x).Perm (x :: l) := by
  have h1 : (l.take k ++ x :: l.drop k).Perm (x :: (l.take k ++ l.drop k)) :=
    List.perm_middle
  rw [List.take_append_drop] at h1
  exact h1

theorem removeAt_perm (l : List α) (k : Nat) (x : α) (h : l.get? k = some x) :
    l.Perm (x :: removeAt l k) := by
  have hk : k < l.length := get?_lt_length h
  have hd : l.drop k = x :: l.drop (k + 1) := by
    rw [List.drop_eq_get_cons hk]
    congr 1
    have := List.get?_eq_get hk
    rw [h] at this
    exact (Option.some.inj this).symm
  have h1 : (l.take k ++ x :: l.drop (k + 1)).Perm (x :: (l.take k ++ l.drop (k + 1))) :=
    List.perm_middle
  have h2 : l = l.take k ++ x :: l.drop (k + 1) := by
    rw [← hd, List.take_append_drop]
  unfold removeAt
  conv_lhs => rw [h2]
  exact h1

theorem arrayMove_coe (l : List α) (f t : Nat) (x : α)
    (hf : l.get? f = some x) (ht : t < l.length) :
    arrayMove (l.map some) (f : Int) (t : Int)
      = (insertAt (removeAt l f) t x).map some := by
  have hfl : f < l.length := get?_lt_length hf
  unfold arrayMove spliceRemoveOne spliceInsertOne
  simp only [List.length_map]
  rw [if_neg (by omega : ¬ (t : Int) < 0)]
  rw [show jsSpliceStart l.length (f : Int) = f by rw [jsSpliceStart_coe]; omega]
  rw [show (l.map some).get? f = some (some x) by rw [List.get?_map, hf]; rfl]
  rw [show removeAt (l.map some) f = (removeAt l f).map some from (map_removeAt some l f).symm]
  simp only [List.length_map, Option.getD_some]
  rw [length_removeAt l f hfl]
  rw [show jsSpliceStart (l.length - 1) (t : Int) = t by rw [jsSpliceStart_coe]; omega]
  exact (map_insertAt some (removeAt l f) t x).symm

theorem arrayMove_perm (l : List (Option α)) (f t : Int)
    (hf : (f = -1 ∧ l ≠ []) ∨ ∃ k : Nat, f = (k : Int) ∧ k < l.length) :
    (arrayMove l f t).Perm l := by
  have hk : jsSpliceStart l.length f < l.length := by
    rcases hf with ⟨rfl, hne⟩ | ⟨k, rfl, hkl⟩
    · have hlen : l.length ≠ 0 := by simpa [List.length_eq_zero] using hne
      rw [jsSpliceStart_negOne]; omega
    · rw [jsSpliceStart_coe]; omega
  obtain ⟨x, hx⟩ : ∃ x, l.get? (jsSpliceStart l.length f) = some x := by
    rw [List.get?_eq_get hk]; exact ⟨_, rfl⟩
  simp only [arrayMove, spliceRemoveOne, spliceInsertOne, hx, Option.getD_some]
  exact (insertAt_perm _ _ _).trans (removeAt_perm l _ x hx).symm

theorem uniq_of_nodup_ids (fields : List Field) (hnd : (fields.map Field.id).Nodup)
    (j : Nat) (x : Field) (hj : fields.get? j = some x) :
    ∀ k y, fields.get? k = some y → (y.id == x.id) = true → k = j := by
  intro k y hk hy
  have hyx : y.id = x.id := by simpa using hy
  have hk' : (fields.map Field.id).get? k = some x.id := by
    rw [List.get?_map, hk]
    simp [hyx]
  have hj' : (fields.map Field.id).get? j = some x.id := by
    rw [List.get?_map, hj]
    rfl
  have hkl : k < (fields.map Field.id).length := get?_lt_length hk'
  exact List.get?_inj hkl hnd (hk'.trans hj'.symm)

theorem runAdds_length_le (ops : List (Field × Nat)) :
    ∀ acc : List Field, acc.length ≤ MAX_FIELDS →
      (ops.foldl (fun fs op => handleAddField fs op.1 op.2) acc).length ≤ MAX_FIELDS := by
  induction ops with
  | nil => intro acc h; simpa using h
  | cons op ops ih =>
    intro acc h
    simp only [List.foldl_cons]
    apply ih
    unfold handleAddField
    split
    · exact h
    · simp only [List.length_append, List.length_cons, List.length_nil]
      omega

/-! ### The claims -/

/-- C1: through any sequence of `add` clicks starting from the empty list
the field list's length never exceeds `MAX_FIELDS`, and an `add` invoked
when the length is already at or above `MAX_FIELDS` returns the list
unchanged. -/
theorem C1_add_cap :
    (∀ ops : List (Field × Nat), (runAdds ops).length ≤ MAX_FIELDS) ∧
    (∀ (fields : List Field) (tmpl : Field) (now : Nat),
      MAX_FIELDS ≤ fields.length → handleAddField fields tmpl now = fields) := by
  constructor
  · intro ops
    exact runAdds_length_le ops [] (by simp)
  · intro fields tmpl now h
    unfold handleAddField
    rw [if_pos h]

/-- Witness for C1 at a concrete full list. -/
theorem C1_add_cap_witness :
    MAX_FIELDS ≤ tenFields.length ∧ handleAddField tenFields textTemplate 7 = tenFields :=
  ⟨by decide, C1_add_cap.2 tenFields textTemplate 7 (by decide)⟩

/-- C2 (failing-input evaluation): a drop whose dragged id `"x"` is not in
the list but whose `over` id `"a"` is, run against page.tsx's unguarded
`handleDragEnd`, moves the last element to the front instead of leaving
the list unchanged; the part_000 variant of the same handler (which
guards `findIndex` against `-1`) is a no-op on the same input. -/
theorem C2_unguarded_drop_changes_list :
    handleDragEnd [fieldA, fieldB] "x" (some "a") = [some fieldB, some fieldA] ∧
    handleDragEnd [fieldA, fieldB] "x" (some "a") ≠ ([fieldA, fieldB]).map some ∧
    Part000.handleDragEnd [fieldA, fieldB] "x" (some "a") = ([fieldA, fieldB]).map some := by
  decide

/-- C3 (failing-input evaluation): adding the text template twice with the
same `Date.now()` value produces two instances with the identical id
`"text-5"`, violating the id-uniqueness invariant. -/
theorem C3_duplicate_ids :
    ((handleAddField (handleAddField [] textTemplate 5) textTemplate 5).map Field.id)
        = ["text-5", "text-5"] ∧
    ¬ ((handleAddField (handleAddField [] textTemplate 5) textTemplate 5).map Field.id).Nodup := by
  decide

/-- C4: when both the dragged id `a` (first occurrence at index `i`) and
the over id `o` (first occurrence at index `j`) are in the list and
`a ≠ o`, the drop is the stable single-element relocation: the result is
exactly remove-at-`i`-then-insert-at-`j`, the moved instance (with id `a`)
sits at index `j`, deleting index `j` from the result recovers the rest of
the original list unchanged and in order, and the length is preserved. -/
theorem C4_drop_is_stable_relocation (fields : List Field) (a o : String) (i j : Nat) (x : Field)
    (hi : jsFindIndex (fun f => f.id == a) fields = (i : Int))
    (hj : jsFindIndex (fun f => f.id == o) fields = (j : Int))
    (hao : a ≠ o) (hx : fields.get? i = some x) :
    x.id = a ∧
    handleDragEnd fields a (some o) = (insertAt (removeAt fields i) j x).map some ∧
    (insertAt (removeAt fields i) j x).get? j = some x ∧
    removeAt (insertAt (removeAt fields i) j x) j = removeAt fields i ∧
    (insertAt (removeAt fields i) j x).length = fields.length := by
  obtain ⟨hil, x', hx', hpx'⟩ := jsFindIndex_coe _ fields i hi
  obtain ⟨hjl, y, hy, hpy⟩ := jsFindIndex_coe _ fields j hj
  obtain rfl : x = x' := by
    rw [hx] at hx'
    exact Option.some.inj hx'
  have hxa : x.id = a := by simpa using hpx'
  have hrm : (removeAt fields i).length = fields.length - 1 := length_removeAt fields i hil
  have hjle : j ≤ (removeAt fields i).length := by omega
  refine ⟨hxa, ?_, get?_insertAt_self _ j x hjle, removeAt_insertAt _ j x hjle, ?_⟩
  · simp only [handleDragEnd]
    rw [if_neg hao, hi, hj]
    exact arrayMove_coe fields i j x hx hjl
  · rw [length_insertAt _ j x hjle, hrm]
    omega

/-- Witness for C4: dragging `"b"` over `"a"` in `[fieldA, fieldB]`. -/
theorem C4_drop_is_stable_relocation_witness :
    fieldB.id = "b" ∧
    handleDragEnd [fieldA, fieldB] "b" (some "a")
        = (insertAt (removeAt [fieldA, fieldB] 1) 0 fieldB).map some ∧
    (insertAt (removeAt [fieldA, fieldB] 1) 0 fieldB).get? 0 = some fieldB ∧
    removeAt (insertAt (removeAt [fieldA, fieldB] 1) 0 fieldB) 0 = removeAt [fieldA, fieldB] 1 ∧
    (insertAt (removeAt [fieldA, fieldB] 1) 0 fieldB).length
        = ([fieldA, fieldB] : List Field).length :=
  C4_drop_is_stable_relocation [fieldA, fieldB] "b" "a" 1 0 fieldB
    (by decide) (by decide) (by decide) (by decide)

/-- C5: below the cap, `add` appends exactly one new instance at the end,
leaving the existing fields untouched; the new instance keeps the
template's type, its label is the template label, a space, and the
1-indexed insertion position, and its `className` is the template's
(rendering as `"w-full"` when the template has none). -/
theorem C5_add_appends (fields : List Field) (tmpl : Field) (now : Nat)
    (h : fields.length < MAX_FIELDS) :
    handleAddField fields tmpl now = fields ++ [newField tmpl fields.length now] ∧
    (newField tmpl fields.length now).type = tmpl.type ∧
    (newField tmpl fields.length now).label
        = tmpl.label ++ " " ++ toString (fields.length + 1) ∧
    (newField tmpl fields.length now).className = tmpl.className ∧
    (tmpl.className = none →
      effectiveClassName (newField tmpl fields.length now).className = "w-full") := by
  refine ⟨?_, rfl, rfl, rfl, ?_⟩
  · unfold handleAddField
    rw [if_neg (by omega)]
  · intro hcn
    simp [newField, hcn, effectiveClassName]

/-- Witness for C5: one add of the text template on the empty list. -/
theorem C5_add_appends_witness :
    handleAddField [] textTemplate 7 = [] ++ [newField textTemplate 0 7] ∧
    effectiveClassName (newField textTemplate 0 7).className = "w-full" :=
  ⟨(C5_add_appends [] textTemplate 7 (by decide)).1,
   (C5_add_appends [] textTemplate 7 (by decide)).2.2.2.2 (by decide)⟩

/-- C6: saving an edit keeps the list length, leaves every instance whose
id differs from `editingId` unchanged in place, never changes any
instance's id, leaves the whole list unchanged when `editingId` matches no
instance, and always closes the modal. -/
theorem C6_save_frame (fields : List Field) (es : EditState) :
    ((handleSaveEdit fields es).1).length = fields.length ∧
    (∀ k f, fields.get? k = some f → some f.id ≠ es.editingId →
        ((handleSaveEdit fields es).1).get? k = some f) ∧
    (∀ k f, fields.get? k = some f →
        ∃ g, ((handleSaveEdit fields es).1).get? k = some g ∧ g.id = f.id) ∧
    ((∀ f ∈ fields, some f.id ≠ es.editingId) → (handleSaveEdit fields es).1 = fields) ∧
    ((handleSaveEdit fields es).2).showModal = false := by
  refine ⟨by simp [handleSaveEdit], ?_, ?_, ?_, rfl⟩
  · intro k f hk hne
    simp only [handleSaveEdit, List.get?_map, hk, Option.map_some']
    rw [if_neg hne]
  · intro k f hk
    simp only [handleSaveEdit, List.get?_map, hk, Option.map_some']
    refine ⟨_, rfl, ?_⟩
    by_cases hc : some f.id = es.editingId
    · rw [if_pos hc]
    · rw [if_neg hc]
  · intro hall
    have h2 : (handleSaveEdit fields es).1 = fields.map id :=
      List.map_congr_left (fun f hf => by rw [if_neg (hall f hf)]; rfl)
    rw [h2, List.map_id]

/-- Witness for C6 at an `editingId` matching no field. -/
theorem C6_save_frame_witness :
    (handleSaveEdit [fieldA, fieldB] esAbsent).1 = [fieldA, fieldB] ∧
    ((handleSaveEdit [fieldA, fieldB] esAbsent).2).showModal = false :=
  ⟨(C6_save_frame [fieldA, fieldB] esAbsent).2.2.2.1 (by decide),
   (C6_save_frame [fieldA, fieldB] esAbsent).2.2.2.2⟩

/-- C7 (counterexample): for a field whose `className` is absent,
open-edit-label-save stores `className = ""` rather than leaving it
absent, so the stored instance is not the one the claim predicts. -/
theorem C7_className_becomes_empty :
    (handleSaveEdit [fieldA] (setEditLabel (openEditModal [fieldA] initEditState "a") "X")).1
        = [{ fieldA with label := "X", className := some "" }] ∧
    fieldA.className = none ∧
    (handleSaveEdit [fieldA] (setEditLabel (openEditModal [fieldA] initEditState "a") "X")).1
        ≠ [{ fieldA with label := "X" }] := by
  decide

/-- C7 (amended): for the instance `open` resolves, the sequence
open(id), set the label draft to `X`, save produces at that instance's
position a field with label `X`, the same type and the same id; its
`className` is unchanged whenever it was present, and becomes the empty
string (which renders identically, as `"w-full"`) when it was absent. -/
theorem C7_edit_updates_label_only (fields : List Field) (es0 : EditState) (id X : String)
    (f : Field) (k : Nat)
    (hfind : fields.find? (fun g => g.id == id) = some f)
    (hk : fields.get? k = some f) :
    ((handleSaveEdit fields (setEditLabel (openEditModal fields es0 id) X)).1).get? k
        = some { f with label := X, className := some (f.className.getD "") } ∧
    ({ f with label := X, className := some (f.className.getD "") } : Field).type = f.type ∧
    ({ f with label := X, className := some (f.className.getD "") } : Field).id = f.id ∧
    (f.className ≠ none →
      ({ f with label := X, className := some (f.className.getD "") } : Field).className
        = f.className) ∧
    (f.className = none →
      ({ f with label := X, className := some (f.className.getD "") } : Field).className
        = some "") := by
  have hfid : f.id = id := by simpa using List.find?_some hfind
  refine ⟨?_, rfl, rfl, ?_, ?_⟩
  · simp only [openEditModal, hfind, setEditLabel, handleSaveEdit, List.get?_map, hk,
      Option.map_some']
    rw [if_pos (by rw [hfid])]
  · intro hcn
    cases hcl : f.className with
    | none => exact absurd hcl hcn
    | some s => simp [hcl]
  · intro hcn
    simp [hcn]

/-- Witness for C7 on a field with a present `className`. -/
theorem C7_edit_updates_label_only_witness :
    ((handleSaveEdit [fieldC] (setEditLabel (openEditModal [fieldC] initEditState "c") "X")).1).get? 0
        = some { fieldC with label := "X", className := some (fieldC.className.getD "") } ∧
    ({ fieldC with label := "X", className := some (fieldC.className.getD "") } : Field).className
        = fieldC.className :=
  ⟨(C7_edit_updates_label_only [fieldC] initEditState "c" "X" fieldC 0 (by decide) (by decide)).1,
   (C7_edit_updates_label_only [fieldC] initEditState "c" "X" fieldC 0 (by decide) (by decide)).2.2.2.1
     (by decide)⟩

/-- C8: `open(fieldId)` is a no-op (state, including the draft, untouched)
when no field has that id, and when a field is found it opens the modal
with the draft seeded from exactly that stored instance: its label, its
type, and its `className` or `""` when absent. -/
theorem C8_open_modal (fields : List Field) (es : EditState) (id : String) :
    ((∀ f ∈ fields, f.id ≠ id) → openEditModal fields es id = es) ∧
    (∀ f, fields.find? (fun g => g.id == id) = some f →
        openEditModal fields es id
          = { editingId := some id, editLabel := f.label, editType := f.type,
              editClass := f.className.getD "", showModal := true }) := by
  constructor
  · intro hall
    have hnone : fields.find? (fun g => g.id == id) = none :=
      List.find?_eq_none.mpr (fun x hx => by simpa using hall x hx)
    simp [openEditModal, hnone]
  · intro f hf
    simp [openEditModal, hf]

/-- Witness for C8: an absent id is a no-op, a present id seeds the draft. -/
theorem C8_open_modal_witness :
    openEditModal [fieldA] initEditState "zzz" = initEditState ∧
    openEditModal [fieldA] initEditState "a"
        = { editingId := some "a", editLabel := fieldA.label, editType := fieldA.type,
            editClass := fieldA.className.getD "", showModal := true } :=
  ⟨(C8_open_modal [fieldA] initEditState "zzz").1 (by decide),
   (C8_open_modal [fieldA] initEditState "a").2 fieldA (by decide)⟩

/-- C9 (counterexample): with two distinct instances sharing the id
`"text-5"` (reachable by two same-millisecond adds), moving that id to
index 1 and then back to its original index 0 does not restore the
original list. -/
theorem C9_reorder_not_inverse_with_dup_ids :
    reorderDrop [dupFieldA, dupFieldB] "text-5" 1 = ([dupFieldB, dupFieldA]).map some ∧
    reorderDrop [dupFieldB, dupFieldA] "text-5" 0 = ([dupFieldB, dupFieldA]).map some ∧
    ([dupFieldB, dupFieldA]).map some ≠ ([dupFieldA, dupFieldB]).map some := by
  decide

/-- C9 (amended): when the ids in the list are pairwise distinct, moving
the instance with id `fid` (at index `j`) to any valid index `i` and then
moving it back to `j` restores the original list exactly. -/
theorem C9_reorder_inverse (fields l₁ : List Field) (fid : String) (i j : Nat) (x : Field)
    (hnd : (fields.map Field.id).Nodup)
    (hj : fields.get? j = some x) (hx : x.id = fid)
    (hi : i < fields.length)
    (h1 : reorderDrop fields fid (i : Int) = l₁.map some) :
    reorderDrop l₁ fid (j : Int) = fields.map some := by
  have hjl : j < fields.length := get?_lt_length hj
  have hpx : (x.id == fid) = true := by simp [hx]
  have hu1 : ∀ k y, fields.get? k = some y → (y.id == fid) = true → k = j := by
    intro k y hk hy
    apply uniq_of_nodup_ids fields hnd j x hj k y hk
    rw [hx]
    exact hy
  have hf1 : jsFindIndex (fun it => it.id == fid) fields = (j : Int) :=
    jsFindIndex_eq_of_unique _ fields j x hj hpx hu1
  have hmove1 : reorderDrop fields fid (i : Int) = (insertAt (removeAt fields j) i x).map some := by
    unfold reorderDrop
    rw [hf1]
    exact arrayMove_coe fields j i x hj hi
  have hl1 : l₁ = insertAt (removeAt fields j) i x :=
    (List.map_injective_iff.mpr (Option.some_injective _) (hmove1.symm.trans h1)).symm
  subst hl1
  have hrml : (removeAt fields j).length = fields.length - 1 := length_removeAt fields j hjl
  have hile : i ≤ (removeAt fields j).length := by omega
  have hperm : (insertAt (removeAt fields j) i x).Perm fields :=
    (insertAt_perm _ i x).trans (removeAt_perm fields j x hj).symm
  have hnd1 : ((insertAt (removeAt fields j) i x).map Field.id).Nodup :=
    ((hperm.map Field.id).nodup_iff).mpr hnd
  have hgi : (insertAt (removeAt fields j) i x).get? i = some x :=
    get?_insertAt_self _ i x hile
  have hu2 : ∀ k y, (insertAt (removeAt fields j) i x).get? k = some y →
      (y.id == fid) = true → k = i := by
    intro k y hk hy
    apply uniq_of_nodup_ids _ hnd1 i x hgi k y hk
    rw [hx]
    exact hy
  have hf2 : jsFindIndex (fun it => it.id == fid) (insertAt (removeAt fields j) i x) = (i : Int) :=
    jsFindIndex_eq_of_unique _ _ i x hgi hpx hu2
  have hlen1 : (insertAt (removeAt fields j) i x).length = fields.length := by
    rw [length_insertAt _ i x hile, hrml]
    omega
  unfold reorderDrop
  rw [hf2]
  rw [arrayMove_coe (insertAt (removeAt fields j) i x) i j x hgi (by rw [hlen1]; exact hjl)]
  congr 1
  rw [removeAt_insertAt _ i x hile]
  exact insertAt_removeAt fields j x hj

/-- Witness for C9: move `"a"` from index 0 to 1 and back in `[fieldA, fieldB]`. -/
theorem C9_reorder_inverse_witness :
    reorderDrop [fieldB, fieldA] "a" 0 = ([fieldA, fieldB]).map some :=
  C9_reorder_inverse [fieldA, fieldB] [fieldB, fieldA] "a" 1 0 fieldA
    (by decide) (by decide) (by decide) (by decide) (by decide)

/-- C10 (counterexample): on the empty list, page.tsx's drop handler with
an `over` target and a different dragged id inserts the JavaScript value
`undefined` (both inner `splice` lookups miss), producing a one-element
list instead of preserving the length. -/
theorem C10_empty_drop_adds_undefined :
    handleDragEnd ([] : List Field) "x" (some "y") = [none] ∧
    (handleDragEnd ([] : List Field) "x" (some "y")).length ≠ ([] : List Field).length := by
  decide

/-- C10 (amended): on every nonempty field list, both drop handlers
preserve the length and the multiset of field instances — the result is a
permutation of the input, so no instance is created, deleted or modified. -/
theorem C10_drop_preserves_multiset (fields : List Field) (a : String) (o : Option String)
    (h : fields ≠ []) :
    (handleDragEnd fields a o).Perm (fields.map some) ∧
    (Part000.handleDragEnd fields a o).Perm (fields.map some) := by
  have hmapne : fields.map some ≠ [] := fun hc => h (List.map_eq_nil.mp hc)
  constructor
  · cases o with
    | none => exact List.Perm.refl _
    | some o' =>
      by_cases hao : a = o'
      · simp only [handleDragEnd]
        rw [if_pos hao]
      · simp only [handleDragEnd]
        rw [if_neg hao]
        apply arrayMove_perm
        rcases jsFindIndex_neg_or (fun item => item.id == a) fields with h1 | ⟨k, hk, hkl⟩
        · exact Or.inl ⟨h1, hmapne⟩
        · exact Or.inr ⟨k, hk, by simpa using hkl⟩
  · cases o with
    | none =>
      simp only [Part000.handleDragEnd]
      rw [if_neg (by simp)]
      rw [if_neg (by simp)]
    | some o' =>
      by_cases hao : a = o'
      · simp only [Part000.handleDragEnd]
        rw [if_pos (by simp [hao])]
      · simp only [Part000.handleDragEnd]
        rw [if_neg (by simp [hao])]
        by_cases hg : jsFindIndex (fun f => f.id == a) fields ≠ -1 ∧
            jsFindIndex (fun f => f.id == o') fields ≠ -1
        · rw [if_pos hg]
          apply arrayMove_perm
          rcases jsFindIndex_neg_or (fun f => f.id == a) fields with h1 | ⟨k, hk, hkl⟩
          · exact absurd h1 hg.1
          · exact Or.inr ⟨k, hk, by simpa using hkl⟩
        · rw [if_neg hg]

/-- Witness for C10 on a nonempty list. -/
theorem C10_drop_preserves_multiset_witness :
    (handleDragEnd [fieldA] "x" (some "y")).Perm ([fieldA].map some) ∧
    (Part000.handleDragEnd [fieldA] "x" (some "y")).Perm ([fieldA].map some) :=
  C10_drop_preserves_multiset [fieldA] "x" (some "y") (by decide)

end FormBuilder
